import Mathlib

/-!
Shallow embedding of the water-bill OCR reconciliation core (`src/app.js`):
the identifier normalizer `cleanMeter`, the deviation calculator
`calcDiffAbs`, the two-stage matcher `findPrevByOCR`, the record-store
loader (the `prevExcel` change handler's row mapping), and the export
merge (the `exportBtn` click handler).

JavaScript numbers are embedded as exact rationals: a parsed number is a
`Frac` (an unreduced integer fraction, kernel-computable), with `Frac.val`
interpreting it in `ℚ`.  `parseFloat` returning `NaN` (and the `Infinity`
literal, which the code's `isFinite` guard treats the same way) is
embedded as `none`.  Binary-float rounding error is abstracted away; all
quantities in the claims are exactly representable.
-/

namespace WaterBillOCR

/-- JS whitespace (ASCII part), as skipped by `trim` and `parseFloat`. -/
def isJsSpace (c : Char) : Bool :=
  c = ' ' || c = '\t' || c = '\n' || c = '\r' || c = '\x0b' || c = '\x0c'

/-- `String.prototype.trim` on the character list. -/
def trimChars (l : List Char) : List Char :=
  ((l.dropWhile isJsSpace).reverse.dropWhile isJsSpace).reverse

/-- `String.prototype.trim`. -/
def jsTrim (s : String) : String := ⟨trimChars s.data⟩

/-- A character kept by `replace(/[^A-Z0-9\-]/ig,'')`: ASCII letter, digit or hyphen. -/
def keepMeterChar (c : Char) : Bool := c.isAlpha || c.isDigit || c = '-'

/-- `cleanMeter` (app.js:31-34): `if(!s) return '';
return String(s).replace(/[^A-Z0-9\-]/ig,'').toUpperCase().trim();`
(`!s` on a string is the empty-string test). -/
def cleanMeter (s : String) : String :=
  if s = "" then ""
  else jsTrim ⟨(s.data.filter keepMeterChar).map Char.toUpper⟩

/-- An unreduced integer fraction `num / den`.  All fractions built by the
embedding keep `0 < den`, so comparisons and `floor` below are valid. -/
structure Frac where
  num : Int
  den : Int
deriving DecidableEq

/-- The rational value of a fraction. -/
def Frac.val (x : Frac) : ℚ := (x.num : ℚ) / (x.den : ℚ)

/-- Embed an integer. -/
def Frac.ofInt (n : Int) : Frac := ⟨n, 1⟩

/-- Fraction addition. -/
def Frac.add (x y : Frac) : Frac := ⟨x.num * y.den + y.num * x.den, x.den * y.den⟩

/-- Fraction subtraction. -/
def Frac.sub (x y : Frac) : Frac := ⟨x.num * y.den - y.num * x.den, x.den * y.den⟩

/-- Fraction multiplication. -/
def Frac.mul (x y : Frac) : Frac := ⟨x.num * y.num, x.den * y.den⟩

/-- Fraction division; the sign flip keeps the denominator positive when
the divisor is a nonzero fraction with positive denominator. -/
def Frac.div (x y : Frac) : Frac :=
  if y.num < 0 then ⟨-(x.num * y.den), x.den * -y.num⟩ else ⟨x.num * y.den, x.den * y.num⟩

/-- `Math.abs` (valid for positive denominator). -/
def Frac.fabs (x : Frac) : Frac := ⟨|x.num|, x.den⟩

/-- Strict comparison by cross multiplication (valid for positive denominators). -/
def Frac.blt (x y : Frac) : Bool := x.num * y.den < y.num * x.den

/-- `⌊x⌋` computed with Euclidean division (equals the rational floor for
positive denominator). -/
def Frac.floor (x : Frac) : Int := x.num / x.den

/-- `Math.round x = ⌊x + 1/2⌋`. -/
def jsRound (x : Frac) : Int := Frac.floor (Frac.add x ⟨1, 2⟩)

/-- The value of an ASCII digit. -/
def digitVal (c : Char) : Nat := c.toNat - 48

/-- The natural number denoted by a digit string. -/
def digitsToNat (l : List Char) : Nat := l.foldl (fun a c => 10 * a + digitVal c) 0

/-- The exponent denoted by an optionally signed digit run; `0` when no
digit follows (then the exponent marker is not part of the JS numeric
literal and is ignored). -/
def expoOf (l : List Char) : Int :=
  match l with
  | '+' :: t => if (t.takeWhile Char.isDigit).isEmpty then 0 else (digitsToNat (t.takeWhile Char.isDigit) : Int)
  | '-' :: t => if (t.takeWhile Char.isDigit).isEmpty then 0 else -(digitsToNat (t.takeWhile Char.isDigit) : Int)
  | t => if (t.takeWhile Char.isDigit).isEmpty then 0 else (digitsToNat (t.takeWhile Char.isDigit) : Int)

/-- The exponent part of a JS numeric literal, if present. -/
def expPart (l : List Char) : Int :=
  match l with
  | 'e' :: t => expoOf t
  | 'E' :: t => expoOf t
  | _ => 0

/-- Assemble the value of a parsed literal: sign, integer digits `ip`,
fraction digits `fp`, decimal exponent `e`.  The denominator is a power of
ten, hence positive. -/
def mkFloat (neg : Bool) (ip fp : List Char) (e : Int) : Frac :=
  let m : Int := (digitsToNat ip : Int) * 10 ^ fp.length + (digitsToNat fp : Int)
  let n : Int := if neg then -m else m
  if 0 ≤ e then ⟨n * 10 ^ e.toNat, 10 ^ fp.length⟩
  else ⟨n, 10 ^ fp.length * 10 ^ (-e).toNat⟩

/-- JS `parseFloat`: skip leading whitespace, optional sign, then the
longest prefix that is a decimal literal (digits, optional `.` and
fraction digits, optional exponent); trailing junk is ignored.  `none`
models `NaN` (no literal found) and the `Infinity` literal — both are
rejected by the `isFinite` guard at the only call site (app.js:39). -/
def parseFloat (s : String) : Option Frac :=
  let l0 := s.data.dropWhile isJsSpace
  let neg : Bool := match l0 with | '-' :: _ => true | _ => false
  let l1 : List Char := match l0 with | '+' :: t => t | '-' :: t => t | _ => l0
  if List.isPrefixOf "Infinity".data l1 then none
  else
    let ip := l1.takeWhile Char.isDigit
    let l2 := l1.dropWhile Char.isDigit
    let fp : List Char := match l2 with | '.' :: t => t.takeWhile Char.isDigit | _ => []
    let l3 : List Char := match l2 with | '.' :: t => t.dropWhile Char.isDigit | _ => l2
    if ip.isEmpty && fp.isEmpty then none
    else some (mkFloat neg ip fp (expPart l3))

/-- `String(x).replace(/,/g,'')`. -/
def stripCommas (s : String) : String := ⟨s.data.filter (fun c => c ≠ ',')⟩

/-- The CSS classes used for the deviation cell: `diff-red` (spec's
ABOVE_THRESHOLD), `diff-green` (BELOW_THRESHOLD), `diff-gray`
(NOT_APPLICABLE). -/
inductive DiffCls where
  | red
  | green
  | gray
deriving DecidableEq

/-- The value returned by `calcDiffAbs`: display text and CSS class. -/
structure DiffRes where
  text : String
  cls : DiffCls
deriving DecidableEq

/-- `(k/10).toFixed(1)` for an integer `k ≥ 0` (every argument below is
`Math.round` of a nonnegative quantity). -/
def toFixed1 (k : Int) : String := toString (k.toNat / 10) ++ "." ++ toString (k.toNat % 10)

/-- `calcDiffAbs` (app.js:36-43).  Commas are stripped from BOTH arguments
before `parseFloat`; `!isFinite(pn) || pn === 0 || !isFinite(cn)` yields
the gray em-dash; otherwise the absolute percentage deviation, rounded to
one decimal for display, red iff strictly above 30. -/
def calcDiffAbs (prev curr : String) : DiffRes :=
  match parseFloat (stripCommas prev), parseFloat (stripCommas curr) with
  | some pn, some cn =>
    if pn.num = 0 then { text := "—", cls := DiffCls.gray }
    else
      let diff := Frac.fabs (Frac.mul (Frac.div (Frac.sub cn pn) pn) (Frac.ofInt 100))
      let rounded := toFixed1 (jsRound (Frac.mul diff (Frac.ofInt 10))) ++ "%"
      if Frac.blt (Frac.ofInt 30) diff then { text := rounded, cls := DiffCls.red }
      else { text := rounded, cls := DiffCls.green }
  | _, _ => { text := "—", cls := DiffCls.gray }

/-- One loaded Step-1 row (app.js:26, 78): `{Name, Meter, CleanMeter, Consumption}`. -/
structure PrevRec where
  Name : String
  Meter : String
  CleanMeter : String
  Consumption : String
deriving DecidableEq

/-- The digit characters of a string, in order (`replace(/[^0-9]/g,'')`). -/
def digitsOf (s : String) : List Char := s.data.filter Char.isDigit

/-- `slice(-6)`: the last six characters, or the whole string when shorter. -/
def last6 (l : List Char) : List Char := l.drop (l.length - 6)

/-- `findPrevByOCR` (app.js:46-59): exact cleaned match first, then the
last-6-digits fallback, first hit in store order; `null` is `none`. -/
def findPrevByOCR (prevData : List PrevRec) (meterOCR : String) : Option PrevRec :=
  let cleaned := cleanMeter meterOCR
  if cleaned = "" then none
  else
    match prevData.find? (fun r => r.CleanMeter == cleaned) with
    | some r => some r
    | none =>
      let digits := digitsOf cleaned
      let l6 := last6 digits
      if l6.isEmpty then none
      else prevData.find? (fun r => last6 (digitsOf r.CleanMeter) == l6)

/-- A raw spreadsheet row as a key/value list (the decoded sheet, an
external collaborator's output; values are cell texts). -/
abbrev RawRow := List (String × String)

/-- JS property access `row[k]`: `some` when the column is present. -/
def getKey (row : RawRow) (k : String) : Option String :=
  (row.find? (fun kv => kv.1 == k)).map (fun kv => kv.2)

/-- A chain `row[k1] || row[k2] || ... || ''`: the first alias whose value
is truthy (present and non-empty), else the empty string. -/
def firstTruthy (row : RawRow) : List String → String
  | [] => ""
  | k :: ks =>
    match getKey row k with
    | some v => if v = "" then firstTruthy row ks else v
    | none => firstTruthy row ks

/-- The name alias chain (app.js:75). -/
def nameKeys : List String := ["Name", "name", "Account Name", "Customer"]

/-- The meter alias chain (app.js:76; `row['Meter']` and `row.Meter` are
the same key, listed twice in the source). -/
def meterKeys : List String := ["Meter No.", "Meter No", "MeterNo", "Meter", "Meter"]

/-- The consumption alias chain (app.js:77). -/
def consKeys : List String := ["Consumption", "Consumption Qty", "Qty", "Prev Consumption", "Prev"]

/-- The row mapping of the `prevExcel` change handler (app.js:73-79). -/
def loadRow (row : RawRow) : PrevRec :=
  let name := firstTruthy row nameKeys
  let meter := firstTruthy row meterKeys
  let cons := firstTruthy row consKeys
  { Name := jsTrim name, Meter := jsTrim meter, CleanMeter := cleanMeter meter
    Consumption := jsTrim cons }

/-- `prevData = json.map(...)` (app.js:73). -/
def loadPrevData (rows : List RawRow) : List PrevRec := rows.map loadRow

/-- One OCR capture-ledger entry (app.js:182-188); `preview` and `rawText`
are carried but unused by matching and export. -/
structure OcrEntry where
  id : Nat
  preview : String
  rawText : String
  meterOCR : String
  consumptionOCR : String
deriving DecidableEq

/-- One export row (app.js:311-316): `{Name, 'Meter No.', 'Prev Consumption',
'Current Consumption'}`. -/
structure ExportRow where
  Name : String
  MeterNo : String
  PrevConsumption : String
  CurrConsumption : String
deriving DecidableEq

/-- Pass 1 of the export handler (app.js:301-317): walk `ocrResults` in
order, pushing one row per entry and recording matched non-empty
`CleanMeter` keys (`currCons = r.consumptionOCR || ''` is the identity on
strings, and `p.Name || ''` likewise in pass 2). -/
def exportPass1 (store : List PrevRec) (ledger : List OcrEntry) :
    List ExportRow × List String :=
  ledger.foldl
    (fun acc r =>
      let prev := findPrevByOCR store r.meterOCR
      let name := match prev with | some p => p.Name | none => "Not Found"
      let meterPrev := match prev with | some p => p.Meter | none => "Not Found"
      let prevCons := match prev with | some p => p.Consumption | none => "Not Found"
      let currCons := r.consumptionOCR
      let keys := match prev with
        | some p => if p.CleanMeter = "" then acc.2 else acc.2 ++ [p.CleanMeter]
        | none => acc.2
      (acc.1 ++ [⟨name, meterPrev, prevCons, currCons⟩], keys))
    ([], [])

/-- The full export handler (app.js:292-339 minus the serialization):
pass 1 rows, then every Step-1 row with a non-empty `CleanMeter` not in
the matched-key set, with blank current consumption. -/
def exportRows (store : List PrevRec) (ledger : List OcrEntry) : List ExportRow :=
  let res := exportPass1 store ledger
  store.foldl
    (fun rows p =>
      if p.CleanMeter = "" then rows
      else if res.2.contains p.CleanMeter then rows
      else rows ++ [⟨p.Name, p.Meter, p.Consumption, ""⟩])
    res.1

/-- The row the exporter derives from one capture entry (claim-side
restatement of pass 1's per-entry row). -/
def captureRow (store : List PrevRec) (r : OcrEntry) : ExportRow :=
  match findPrevByOCR store r.meterOCR with
  | some p => ⟨p.Name, p.Meter, p.Consumption, r.consumptionOCR⟩
  | none => ⟨"Not Found", "Not Found", "Not Found", r.consumptionOCR⟩

/-- The canonical identifiers consumed by the ledger, in capture order
(claim-side restatement of pass 1's key set). -/
def consumedKeys (store : List PrevRec) (ledger : List OcrEntry) : List String :=
  ledger.filterMap (fun r =>
    match findPrevByOCR store r.meterOCR with
    | some p => if p.CleanMeter = "" then none else some p.CleanMeter
    | none => none)

/-- The export row of an unmatched prior record. -/
def unmatchedRow (p : PrevRec) : ExportRow := ⟨p.Name, p.Meter, p.Consumption, ""⟩

/-- Deviation calculation as claim C3 words it, for refinement comparison
against `calcDiffAbs`: commas removed from the prior value only, the
current value parsed as given. -/
def calcDiffAbsPriorCommasOnly (prev curr : String) : DiffRes :=
  match parseFloat (stripCommas prev), parseFloat curr with
  | some pn, some cn =>
    if pn.num = 0 then { text := "—", cls := DiffCls.gray }
    else
      let diff := Frac.fabs (Frac.mul (Frac.div (Frac.sub cn pn) pn) (Frac.ofInt 100))
      let rounded := toFixed1 (jsRound (Frac.mul diff (Frac.ofInt 10))) ++ "%"
      if Frac.blt (Frac.ofInt 30) diff then { text := rounded, cls := DiffCls.red }
      else { text := rounded, cls := DiffCls.green }
  | _, _ => { text := "—", cls := DiffCls.gray }

/-- Fallback selection as claim C2 words it, for refinement comparison:
the first record whose concatenated digit characters end with the given
digit suffix. -/
def fallbackEndsWith (store : List PrevRec) (sfx : List Char) : Option PrevRec :=
  store.find? (fun r => List.isSuffixOf sfx (digitsOf r.CleanMeter))

/-- Field selection as claim C5 words it, for refinement comparison: the
value of the first present alias, even when that value is empty. -/
def firstPresent (row : RawRow) : List String → String
  | [] => ""
  | k :: ks =>
    match getKey row k with
    | some v => v
    | none => firstPresent row ks

/-- Field selection as claim C5's amended wording: the value of the first
alias that is present with a non-empty value, else the empty string. -/
def firstNonEmpty (row : RawRow) (ks : List String) : String :=
  match ks.filterMap (fun k =>
    match getKey row k with
    | some v => if v = "" then none else some v
    | none => none) with
  | [] => ""
  | v :: _ => v

/-! ### Bridge lemmas between `Frac` computations and their `ℚ` values -/

theorem Frac.val_of_num_zero (x : Frac) (h : x.num = 0) : x.val = 0 := by
  unfold Frac.val
  rw [h]
  simp

theorem Frac.val_ne_zero (x : Frac) (hd : 0 < x.den) (hn : x.num ≠ 0) : x.val ≠ 0 := by
  unfold Frac.val
  exact div_ne_zero (Int.cast_ne_zero.mpr hn) (Int.cast_ne_zero.mpr hd.ne')

theorem Frac.val_add (x y : Frac) (hx : x.den ≠ 0) (hy : y.den ≠ 0) :
    (x.add y).val = x.val + y.val := by
  have hx' : (x.den : ℚ) ≠ 0 := Int.cast_ne_zero.mpr hx
  have hy' : (y.den : ℚ) ≠ 0 := Int.cast_ne_zero.mpr hy
  unfold Frac.add Frac.val
  push_cast
  field_simp

theorem Frac.val_sub (x y : Frac) (hx : x.den ≠ 0) (hy : y.den ≠ 0) :
    (x.sub y).val = x.val - y.val := by
  have hx' : (x.den : ℚ) ≠ 0 := Int.cast_ne_zero.mpr hx
  have hy' : (y.den : ℚ) ≠ 0 := Int.cast_ne_zero.mpr hy
  unfold Frac.sub Frac.val
  push_cast
  field_simp
  ring

theorem Frac.val_mul (x y : Frac) (hx : x.den ≠ 0) (hy : y.den ≠ 0) :
    (x.mul y).val = x.val * y.val := by
  have hx' : (x.den : ℚ) ≠ 0 := Int.cast_ne_zero.mpr hx
  have hy' : (y.den : ℚ) ≠ 0 := Int.cast_ne_zero.mpr hy
  unfold Frac.mul Frac.val
  push_cast
  field_simp

theorem Frac.val_div (x y : Frac) (hx : x.den ≠ 0) (hy : y.den ≠ 0) (hn : y.num ≠ 0) :
    (x.div y).val = x.val / y.val := by
  have hx' : (x.den : ℚ) ≠ 0 := Int.cast_ne_zero.mpr hx
  have hy' : (y.den : ℚ) ≠ 0 := Int.cast_ne_zero.mpr hy
  have hn' : (y.num : ℚ) ≠ 0 := Int.cast_ne_zero.mpr hn
  unfold Frac.div Frac.val
  split
  · push_cast
    field_simp
  · push_cast
    field_simp

theorem Frac.val_fabs (x : Frac) (h : 0 < x.den) : (x.fabs).val = |x.val| := by
  have h' : (0 : ℚ) < (x.den : ℚ) := by exact_mod_cast h
  unfold Frac.fabs Frac.val
  rw [abs_div, abs_of_pos h']
  push_cast
  ring

theorem Frac.val_ofInt (n : Int) : (Frac.ofInt n).val = (n : ℚ) := by
  unfold Frac.ofInt Frac.val
  simp

theorem Frac.blt_iff (x y : Frac) (hx : 0 < x.den) (hy : 0 < y.den) :
    x.blt y = true ↔ x.val < y.val := by
  have hx' : (0 : ℚ) < (x.den : ℚ) := by exact_mod_cast hx
  have hy' : (0 : ℚ) < (y.den : ℚ) := by exact_mod_cast hy
  unfold Frac.blt Frac.val
  rw [decide_eq_true_eq, div_lt_div_iff₀ hx' hy']
  constructor
  · intro h
    exact_mod_cast h
  · intro h
    exact_mod_cast h

theorem Frac.floor_val (x : Frac) (h : 0 < x.den) : x.floor = ⌊x.val⌋ := by
  unfold Frac.floor Frac.val
  have h1 : x.den = ((x.den.toNat : ℕ) : ℤ) := (Int.toNat_of_nonneg h.le).symm
  rw [h1]
  push_cast
  exact (Rat.floor_intCast_div_natCast x.num x.den.toNat).symm

theorem Frac.add_den (x y : Frac) : (x.add y).den = x.den * y.den := rfl

theorem Frac.sub_den (x y : Frac) : (x.sub y).den = x.den * y.den := rfl

theorem Frac.mul_den (x y : Frac) : (x.mul y).den = x.den * y.den := rfl

theorem Frac.fabs_den (x : Frac) : (x.fabs).den = x.den := rfl

theorem Frac.div_den_pos (x y : Frac) (hx : 0 < x.den) (hn : y.num ≠ 0) :
    0 < (x.div y).den := by
  unfold Frac.div
  split
  · rename_i hneg
    have : 0 < -y.num := by omega
    exact mul_pos hx this
  · rename_i hneg
    have : 0 < y.num := lt_of_le_of_ne (not_lt.mp hneg) (Ne.symm hn)
    exact mul_pos hx this

theorem jsRound_val (x : Frac) (h : 0 < x.den) : jsRound x = ⌊x.val + 1 / 2⌋ := by
  unfold jsRound
  have hd : 0 < (Frac.add x ⟨1, 2⟩).den := by
    rw [Frac.add_den]
    positivity
  rw [Frac.floor_val _ hd, Frac.val_add x ⟨1, 2⟩ h.ne' (by norm_num)]
  norm_num [Frac.val]

theorem mkFloat_den_pos (neg : Bool) (ip fp : List Char) (e : Int) :
    0 < (mkFloat neg ip fp e).den := by
  have h1 : (0 : ℤ) < 10 ^ fp.length := by positivity
  have h2 : (0 : ℤ) < 10 ^ fp.length * 10 ^ (-e).toNat := by positivity
  unfold mkFloat
  split <;> split <;> first | exact h1 | exact h2

theorem parseFloat_den_pos {s : String} {f : Frac} (h : parseFloat s = some f) :
    0 < f.den := by
  simp only [parseFloat] at h
  split at h
  · exact absurd h (by simp)
  · split at h
    · exact absurd h (by simp)
    · rw [Option.some.injEq] at h
      rw [← h]
      exact mkFloat_den_pos ..

/-! ### Deviation calculator claims -/

/-- C4 counterexample: the normalizer strips `/` rather than turning it into
a hyphen, so the claimed output value is wrong. -/
theorem claimC4_cx : cleanMeter "ajp-15/24-392020" ≠ "AJP-15-24-392020" := by decide

/-- C4 (amended): `normalize("ajp-15/24-392020")` equals `"AJP-1524-392020"` —
stripping every character that is not an ASCII letter, digit or hyphen,
upper-casing and trimming removes the `/` outright. -/
theorem claimC4 : cleanMeter "ajp-15/24-392020" = "AJP-1524-392020" := by decide

/-- C3 counterexample: on `("100", "1,30")` the code strips the comma from the
current value too (reading 130, deviation 30.0% below threshold), while the
claims' described behaviour parses the current value as given (reading 1,
deviation 99.0% above threshold). -/
theorem claimC3_cx :
    calcDiffAbs "100" "1,30" = { text := "30.0%", cls := DiffCls.green } ∧
    calcDiffAbsPriorCommasOnly "100" "1,30" = { text := "99.0%", cls := DiffCls.red } :=
  ⟨by decide, by decide⟩

/-- C3 (amended): `calcDiffAbs` removes thousands-separator commas from BOTH
the prior-period and the current value before parsing — stripping commas from
either argument never changes the result. -/
theorem claimC3 : ∀ p c : String,
    calcDiffAbs p c = calcDiffAbs (stripCommas p) c ∧
    calcDiffAbs p c = calcDiffAbs p (stripCommas c) := by
  have hss : ∀ s : String, stripCommas (stripCommas s) = stripCommas s := by
    intro s
    simp [stripCommas, List.filter_filter]
  intro p c
  constructor
  · simp only [calcDiffAbs, hss]
  · simp only [calcDiffAbs, hss]

/-- C6: when both inputs parse and the prior value is non-zero, `calcDiffAbs`
displays the absolute percentage deviation `|(curr - prev)/prev * 100|`
rounded to one decimal place with a percent sign, and classifies red
(ABOVE_THRESHOLD) exactly when the unrounded deviation exceeds 30; at the
threshold itself it is green (BELOW_THRESHOLD). -/
theorem claimC6 :
    (∀ (p c : String) (pf cf : Frac),
        parseFloat (stripCommas p) = some pf →
        parseFloat (stripCommas c) = some cf →
        pf.val ≠ 0 →
        calcDiffAbs p c =
          { text := toFixed1 ⌊|(cf.val - pf.val) / pf.val * 100| * 10 + 1 / 2⌋ ++ "%"
            cls := if 30 < |(cf.val - pf.val) / pf.val * 100| then DiffCls.red
                   else DiffCls.green }) ∧
    calcDiffAbs "100" "130" = { text := "30.0%", cls := DiffCls.green } ∧
    calcDiffAbs "100" "131" = { text := "31.0%", cls := DiffCls.red } := by
  refine ⟨?_, by decide, by decide⟩
  intro p c pf cf hp hc hz
  have dp : 0 < pf.den := parseFloat_den_pos hp
  have dc : 0 < cf.den := parseFloat_den_pos hc
  have hnum : pf.num ≠ 0 := fun h0 => hz (Frac.val_of_num_zero pf h0)
  have hsubden : 0 < (Frac.sub cf pf).den := by
    rw [Frac.sub_den]
    exact mul_pos dc dp
  have hdivden : 0 < ((Frac.sub cf pf).div pf).den := Frac.div_den_pos _ _ hsubden hnum
  have hmulden : 0 < (((Frac.sub cf pf).div pf).mul (Frac.ofInt 100)).den := by
    rw [Frac.mul_den]
    exact mul_pos hdivden Int.one_pos
  have hDden : 0 < (Frac.fabs (((Frac.sub cf pf).div pf).mul (Frac.ofInt 100))).den := by
    rw [Frac.fabs_den]
    exact hmulden
  have hDval : (Frac.fabs (((Frac.sub cf pf).div pf).mul (Frac.ofInt 100))).val
      = |(cf.val - pf.val) / pf.val * 100| := by
    rw [Frac.val_fabs _ hmulden,
      Frac.val_mul _ _ hdivden.ne' Int.one_ne_zero,
      Frac.val_div _ _ hsubden.ne' dp.ne' hnum,
      Frac.val_sub _ _ dc.ne' dp.ne', Frac.val_ofInt]
    norm_num
  have hR : jsRound (Frac.mul (Frac.fabs (((Frac.sub cf pf).div pf).mul (Frac.ofInt 100)))
        (Frac.ofInt 10))
      = ⌊|(cf.val - pf.val) / pf.val * 100| * 10 + 1 / 2⌋ := by
    rw [jsRound_val _ (by rw [Frac.mul_den]; exact mul_pos hDden Int.one_pos),
      Frac.val_mul _ _ hDden.ne' Int.one_ne_zero, Frac.val_ofInt, hDval]
    norm_num
  simp only [calcDiffAbs, hp, hc]
  rw [if_neg hnum]
  by_cases h30 : (30 : ℚ) < |(cf.val - pf.val) / pf.val * 100|
  · have hbt : Frac.blt (Frac.ofInt 30)
        (Frac.fabs (((Frac.sub cf pf).div pf).mul (Frac.ofInt 100))) = true := by
      rw [Frac.blt_iff _ _ Int.one_pos hDden, Frac.val_ofInt, hDval]
      exact_mod_cast h30
    rw [if_pos hbt, if_pos h30, hR]
  · have hbf : ¬ Frac.blt (Frac.ofInt 30)
        (Frac.fabs (((Frac.sub cf pf).div pf).mul (Frac.ofInt 100))) = true := by
      rw [Frac.blt_iff _ _ Int.one_pos hDden, Frac.val_ofInt, hDval]
      intro habs
      exact h30 (by exact_mod_cast habs)
    rw [if_neg hbf, if_neg h30, hR]

/-- C6 witness: the general statement instantiated at `("100", "131")`. -/
theorem claimC6_witness :
    calcDiffAbs "100" "131" =
      { text := toFixed1 ⌊|((⟨131, 1⟩ : Frac).val - (⟨100, 1⟩ : Frac).val) /
              (⟨100, 1⟩ : Frac).val * 100| * 10 + 1 / 2⌋ ++ "%"
        cls := if 30 < |((⟨131, 1⟩ : Frac).val - (⟨100, 1⟩ : Frac).val) /
              (⟨100, 1⟩ : Frac).val * 100| then DiffCls.red else DiffCls.green } :=
  claimC6.1 "100" "131" ⟨100, 1⟩ ⟨131, 1⟩ (by decide) (by decide)
    (by norm_num [Frac.val])

/-- C7: the gray em-dash (NOT_APPLICABLE) result occurs exactly when the prior
value fails to parse, parses to zero, or the current value fails to parse; as
a total Lean function `calcDiffAbs` trivially never throws. -/
theorem claimC7 : ∀ p c : String,
    calcDiffAbs p c = { text := "—", cls := DiffCls.gray } ↔
      parseFloat (stripCommas p) = none ∨
      (∃ f, parseFloat (stripCommas p) = some f ∧ f.val = 0) ∨
      parseFloat (stripCommas c) = none := by
  intro p c
  cases hp : parseFloat (stripCommas p) with
  | none =>
    cases hc : parseFloat (stripCommas c) <;> simp [calcDiffAbs, hp, hc]
  | some pf =>
    cases hc : parseFloat (stripCommas c) with
    | none => simp [calcDiffAbs, hp, hc]
    | some cn =>
      simp only [calcDiffAbs, hp, hc]
      by_cases h0 : pf.num = 0
      · rw [if_pos h0]
        refine iff_of_true rfl (Or.inr (Or.inl ⟨pf, rfl, Frac.val_of_num_zero pf h0⟩))
      · rw [if_neg h0]
        apply iff_of_false
        · intro hEq
          split at hEq <;> simp only [DiffRes.mk.injEq] at hEq <;> exact absurd hEq.2 (by simp)
        · rintro (h | ⟨f, hf, hfz⟩ | h)
          · simp at h
          · rw [Option.some.injEq] at hf
            subst hf
            exact Frac.val_ne_zero pf (parseFloat_den_pos hp) h0 hfz
          · simp at h

/-- C7 witness: a zero prior value (the spec's own example `("0", "50")`). -/
theorem claimC7_witness : calcDiffAbs "0" "50" = { text := "—", cls := DiffCls.gray } :=
  (claimC7 "0" "50").mpr (Or.inr (Or.inl ⟨⟨0, 1⟩, by decide, by norm_num [Frac.val]⟩))

/-- C10: on prior `"1000"` and current `"1300.4"` the exact deviation is
`751/25 = 30.04`, strictly above the threshold, yet rounding to one decimal
displays `30.0%` — the classification uses the unrounded deviation while the
display is rounded. -/
theorem claimC10 :
    parseFloat (stripCommas "1000") = some ⟨1000, 1⟩ ∧
    parseFloat (stripCommas "1300.4") = some ⟨13004, 10⟩ ∧
    |((⟨13004, 10⟩ : Frac).val - (⟨1000, 1⟩ : Frac).val) / (⟨1000, 1⟩ : Frac).val * 100|
      = 751 / 25 ∧
    (30 : ℚ) < 751 / 25 ∧
    calcDiffAbs "1000" "1300.4" = { text := "30.0%", cls := DiffCls.red } := by
  refine ⟨by decide, by decide, ?_, by norm_num, by decide⟩
  norm_num [Frac.val]

/-! ### Matcher claims -/

theorem find?_congr {α : Type} (p q : α → Bool) (l : List α) (h : ∀ a, p a = q a) :
    l.find? p = l.find? q := by
  have hpq : p = q := funext h
  rw [hpq]

theorem last6_eq_nil_iff (l : List Char) : last6 l = [] ↔ l = [] := by
  unfold last6
  rw [List.drop_eq_nil_iff, ← List.length_eq_zero]
  omega

theorem last6_of_short {l : List Char} (h : l.length ≤ 6) : last6 l = l := by
  unfold last6
  have h0 : l.length - 6 = 0 := by omega
  rw [h0, List.drop_zero]

theorem last6_length_of_long {l : List Char} (h : 6 ≤ l.length) : (last6 l).length = 6 := by
  unfold last6
  rw [List.length_drop]
  omega

theorem last6_eq_iff_suffix {l s : List Char} (h : s.length = 6) :
    last6 l = s ↔ s <:+ l := by
  constructor
  · intro he
    rw [← he]
    unfold last6
    exact List.drop_suffix _ _
  · rintro ⟨t, rfl⟩
    unfold last6
    rw [List.length_append, h, Nat.add_sub_cancel]
    exact List.drop_left t s

/-- Shape of the fallback stage: once the input is non-empty after
normalization, has no exact match and has at least one digit, the matcher
returns the first record whose digit string's last-6 slice equals the
input's digit string's last-6 slice. -/
theorem findPrev_fallback (store : List PrevRec) (raw : String)
    (hnx : store.find? (fun r => r.CleanMeter == cleanMeter raw) = none)
    (hne : cleanMeter raw ≠ "") (hd : digitsOf (cleanMeter raw) ≠ []) :
    findPrevByOCR store raw =
      store.find? (fun r =>
        last6 (digitsOf r.CleanMeter) == last6 (digitsOf (cleanMeter raw))) := by
  simp only [findPrevByOCR]
  rw [if_neg hne, hnx]
  have h6 : (last6 (digitsOf (cleanMeter raw))).isEmpty = false := by
    rw [List.isEmpty_eq_false_iff_exists_mem]
    rcases List.exists_mem_of_ne_nil _ ((last6_eq_nil_iff _).not.mpr hd) with ⟨x, hx⟩
    exact ⟨x, hx⟩
  rw [h6]
  simp

/-- C8: the matcher normalizes its input, returns NotFound on an empty
normalized form, and otherwise returns an exactly matching record (by
canonical identifier) when one exists, before any fallback; in particular a
store holding canonical `"AJP1524392020"` resolves `"ajp 1524 392020"`. -/
theorem claimC8 :
    (∀ (store : List PrevRec) (raw : String), cleanMeter raw = "" →
        findPrevByOCR store raw = none) ∧
    (∀ (store : List PrevRec) (raw : String), cleanMeter raw ≠ "" →
        (∃ r ∈ store, r.CleanMeter = cleanMeter raw) →
        ∃ r', findPrevByOCR store raw = some r' ∧ r'.CleanMeter = cleanMeter raw) ∧
    findPrevByOCR [⟨"Alice", "AJP1524392020", "AJP1524392020", "55"⟩] "ajp 1524 392020"
      = some ⟨"Alice", "AJP1524392020", "AJP1524392020", "55"⟩ := by
  refine ⟨?_, ?_, by decide⟩
  · intro store raw h
    simp only [findPrevByOCR]
    rw [if_pos h]
  · intro store raw hne hex
    have hsome : (store.find? (fun r => r.CleanMeter == cleanMeter raw)).isSome := by
      rw [List.find?_isSome]
      obtain ⟨r, hr, hcm⟩ := hex
      exact ⟨r, hr, by simp [hcm]⟩
    obtain ⟨r', hr'⟩ := Option.isSome_iff_exists.mp hsome
    have hprop := List.find?_some hr'
    refine ⟨r', ?_, by simpa using hprop⟩
    simp only [findPrevByOCR]
    rw [if_neg hne, hr']

/-- C8 witness: the exact-stage statement instantiated at the spec's example. -/
theorem claimC8_witness :
    ∃ r', findPrevByOCR [⟨"Alice", "AJP1524392020", "AJP1524392020", "55"⟩]
        "ajp 1524 392020" = some r' ∧
      r'.CleanMeter = cleanMeter "ajp 1524 392020" :=
  claimC8.2.1 [⟨"Alice", "AJP1524392020", "AJP1524392020", "55"⟩] "ajp 1524 392020"
    (by decide) ⟨⟨"Alice", "AJP1524392020", "AJP1524392020", "55"⟩, by decide, by decide⟩

/-- C2 counterexample: input `"xx123"` has digit string `"123"`; the record
with canonical identifier `"999123"` has digit string ending in `"123"`, so
the claimed ends-with policy returns it, but the code compares against the
record's last-6 digit slice `"999123"` and returns NotFound. -/
theorem claimC2_cx :
    fallbackEndsWith [⟨"A", "999123", "999123", "10"⟩]
        (last6 (digitsOf (cleanMeter "xx123")))
      = some ⟨"A", "999123", "999123", "10"⟩ ∧
    cleanMeter "xx123" ≠ "" ∧
    List.find? (fun r : PrevRec => r.CleanMeter == cleanMeter "xx123")
        [⟨"A", "999123", "999123", "10"⟩] = none ∧
    digitsOf (cleanMeter "xx123") ≠ [] ∧
    findPrevByOCR [⟨"A", "999123", "999123", "10"⟩] "xx123" = none := by
  refine ⟨by decide, by decide, by decide, by decide, by decide⟩

/-- C2 (amended): with no exact match and a non-empty normalized input, the
fallback concatenates the digit characters, takes the last 6, and returns the
first record whose own concatenated digits have an equal last-6 slice
(NotFound when the input has no digits); this coincides with the claimed
ends-with test exactly when the input has at least 6 digits. -/
theorem claimC2 : ∀ (store : List PrevRec) (raw : String),
    store.find? (fun r => r.CleanMeter == cleanMeter raw) = none →
    cleanMeter raw ≠ "" →
    (digitsOf (cleanMeter raw) = [] → findPrevByOCR store raw = none) ∧
    (digitsOf (cleanMeter raw) ≠ [] →
      findPrevByOCR store raw =
        store.find? (fun r =>
          last6 (digitsOf r.CleanMeter) == last6 (digitsOf (cleanMeter raw)))) ∧
    (6 ≤ (digitsOf (cleanMeter raw)).length →
      findPrevByOCR store raw =
        fallbackEndsWith store (last6 (digitsOf (cleanMeter raw)))) := by
  intro store raw hnx hne
  refine ⟨?_, findPrev_fallback store raw hnx hne, ?_⟩
  · intro hd
    simp only [findPrevByOCR]
    rw [if_neg hne, hnx]
    have h6 : (last6 (digitsOf (cleanMeter raw))).isEmpty = true := by
      rw [List.isEmpty_iff, last6_eq_nil_iff]
      exact hd
    rw [h6]
    simp
  · intro hlen
    have hd : digitsOf (cleanMeter raw) ≠ [] := by
      intro h
      rw [h] at hlen
      simp at hlen
    rw [findPrev_fallback store raw hnx hne hd]
    unfold fallbackEndsWith
    apply find?_congr
    intro r
    rw [Bool.eq_iff_iff, beq_iff_eq, List.isSuffixOf_iff_suffix]
    exact last6_eq_iff_suffix (last6_length_of_long hlen)

/-- C2 witness: the amended fallback statement instantiated at the spec's
example, a 6-digit input matching canonical `"XY-000392020"`. -/
theorem claimC2_witness :
    findPrevByOCR [⟨"X", "XY-000392020", "XY-000392020", "7"⟩] "zz392020" =
      fallbackEndsWith [⟨"X", "XY-000392020", "XY-000392020", "7"⟩]
        (last6 (digitsOf (cleanMeter "zz392020"))) :=
  (claimC2 [⟨"X", "XY-000392020", "XY-000392020", "7"⟩] "zz392020"
    (by decide) (by decide)).2.2 (by decide)

/-- C9: when the normalized input holds between 1 and 5 digit characters and
there is no exact match, the fallback compares the input's whole digit string
against each record's last-6 digit slice, so it matches a record exactly when
the record's digit string equals the input's — a longer digit string merely
ending with the input's digits never matches. -/
theorem claimC9 : ∀ (store : List PrevRec) (raw : String),
    store.find? (fun r => r.CleanMeter == cleanMeter raw) = none →
    cleanMeter raw ≠ "" →
    digitsOf (cleanMeter raw) ≠ [] →
    (digitsOf (cleanMeter raw)).length ≤ 5 →
    findPrevByOCR store raw =
      store.find? (fun r => digitsOf r.CleanMeter == digitsOf (cleanMeter raw)) := by
  intro store raw hnx hne hd h5
  rw [findPrev_fallback store raw hnx hne hd]
  apply find?_congr
  intro r
  have hin : last6 (digitsOf (cleanMeter raw)) = digitsOf (cleanMeter raw) :=
    last6_of_short (by omega)
  rw [hin]
  rcases le_or_lt (digitsOf r.CleanMeter).length 6 with h | h
  · rw [last6_of_short h]
  · have h1 : (last6 (digitsOf r.CleanMeter)).length = 6 := last6_length_of_long h.le
    have hf1 : (last6 (digitsOf r.CleanMeter) == digitsOf (cleanMeter raw)) = false := by
      rw [beq_eq_false_iff_ne]
      intro he
      rw [he] at h1
      omega
    have hf2 : (digitsOf r.CleanMeter == digitsOf (cleanMeter raw)) = false := by
      rw [beq_eq_false_iff_ne]
      intro he
      rw [he] at h
      omega
    rw [hf1, hf2]

/-- C9 witness: input digits `"123"` against a record with digit string
`"999123"` — neither side of the equality matches, NotFound both ways. -/
theorem claimC9_witness :
    findPrevByOCR [⟨"A", "999123", "999123", "10"⟩] "zz123" =
      List.find? (fun r => digitsOf r.CleanMeter == digitsOf (cleanMeter "zz123"))
        [⟨"A", "999123", "999123", "10"⟩] :=
  claimC9 [⟨"A", "999123", "999123", "10"⟩] "zz123" (by decide) (by decide)
    (by decide) (by decide)

/-! ### Record-store loading claim -/

theorem firstTruthy_eq_firstNonEmpty (row : RawRow) (ks : List String) :
    firstTruthy row ks = firstNonEmpty row ks := by
  induction ks with
  | nil => rfl
  | cons k t ih =>
    cases hk : getKey row k with
    | none =>
      simp only [firstTruthy, firstNonEmpty, List.filterMap_cons, hk]
      exact ih
    | some v =>
      by_cases hv : v = ""
      · simp only [firstTruthy, firstNonEmpty, List.filterMap_cons, hk, hv, if_pos]
        exact ih
      · simp only [firstTruthy, firstNonEmpty, List.filterMap_cons, hk, if_neg hv]

/-- C5 counterexample: a row whose first-listed name alias `Name` is present
but empty while the later alias `name` holds `"Bob"`: the claim says the name
field is the empty string, the code's `||` chain skips the falsy empty string
and loads `"Bob"`. -/
theorem claimC5_cx :
    (loadRow [("Name", ""), ("name", "Bob")]).Name = "Bob" ∧
    firstPresent [("Name", ""), ("name", "Bob")] nameKeys = "" :=
  ⟨by decide, by decide⟩

/-- C5 (amended): each of name, identifier and consumption is taken from the
first alias in its fixed ordered list (case-sensitive) whose column is
present with a NON-EMPTY value, defaulting to the empty string — an alias
that is present but empty falls through to later aliases. -/
theorem claimC5 : ∀ row : RawRow,
    loadRow row =
      { Name := jsTrim (firstNonEmpty row nameKeys)
        Meter := jsTrim (firstNonEmpty row meterKeys)
        CleanMeter := cleanMeter (firstNonEmpty row meterKeys)
        Consumption := jsTrim (firstNonEmpty row consKeys) } := by
  intro row
  simp only [loadRow, firstTruthy_eq_firstNonEmpty]

/-! ### Export claim -/

theorem export_foldl1 (store : List PrevRec) (ledger : List OcrEntry)
    (rs : List ExportRow) (ks : List String) :
    ledger.foldl
      (fun acc r =>
        let prev := findPrevByOCR store r.meterOCR
        let name := match prev with | some p => p.Name | none => "Not Found"
        let meterPrev := match prev with | some p => p.Meter | none => "Not Found"
        let prevCons := match prev with | some p => p.Consumption | none => "Not Found"
        let currCons := r.consumptionOCR
        let keys := match prev with
          | some p => if p.CleanMeter = "" then acc.2 else acc.2 ++ [p.CleanMeter]
          | none => acc.2
        (acc.1 ++ [⟨name, meterPrev, prevCons, currCons⟩], keys))
      (rs, ks)
    = (rs ++ ledger.map (captureRow store), ks ++ consumedKeys store ledger) := by
  induction ledger generalizing rs ks with
  | nil => simp [consumedKeys]
  | cons r t ih =>
    simp only [List.foldl_cons]
    cases hm : findPrevByOCR store r.meterOCR with
    | some p =>
      by_cases hcm : p.CleanMeter = ""
      · simp only [hm, hcm, if_pos]
        rw [ih]
        simp [captureRow, consumedKeys, List.filterMap_cons, hm, hcm]
      · simp only [hm, if_neg hcm]
        rw [ih]
        simp [captureRow, consumedKeys, List.filterMap_cons, hm, hcm, List.append_assoc]
    | none =>
      simp only [hm]
      rw [ih]
      simp [captureRow, consumedKeys, List.filterMap_cons, hm]

theorem export_foldl2 (store : List PrevRec) (init : List ExportRow) (ks : List String) :
    store.foldl
      (fun rows p =>
        if p.CleanMeter = "" then rows
        else if ks.contains p.CleanMeter then rows
        else rows ++ [⟨p.Name, p.Meter, p.Consumption, ""⟩])
      init
    = init ++ (store.filter (fun p =>
        !(p.CleanMeter == "") && !(ks.contains p.CleanMeter))).map unmatchedRow := by
  induction store generalizing init with
  | nil => simp
  | cons p t ih =>
    simp only [List.foldl_cons, List.filter_cons]
    by_cases h1 : p.CleanMeter = ""
    · rw [if_pos h1, ih]
      simp [h1]
    · by_cases h2 : ks.contains p.CleanMeter = true
      · have h2m : p.CleanMeter ∈ ks := by simpa using h2
        rw [if_neg h1, if_pos h2, ih]
        simp [h1, h2m]
      · have h2m : p.CleanMeter ∉ ks := by simpa using h2
        rw [if_neg h1, if_neg h2, ih]
        simp [h1, h2m, unmatchedRow, List.append_assoc]

/-- C1: export emits exactly the capture-derived rows in capture order —
matched rows carrying the record's name/identifier/prior consumption,
unmatched ones the `"Not Found"` placeholder, with the entry's consumption
field as current consumption — followed by one blank-current row for every
prior record, in store order, whose canonical identifier is non-empty and
not among the consumed keys; nothing else. -/
theorem claimC1 : ∀ (store : List PrevRec) (ledger : List OcrEntry),
    exportRows store ledger =
      ledger.map (captureRow store) ++
        (store.filter (fun p =>
          !(p.CleanMeter == "") &&
            !((consumedKeys store ledger).contains p.CleanMeter))).map unmatchedRow := by
  intro store ledger
  have h1 : exportPass1 store ledger
      = (ledger.map (captureRow store), consumedKeys store ledger) := by
    unfold exportPass1
    rw [export_foldl1]
    simp
  simp only [exportRows, h1]
  rw [export_foldl2]

end WaterBillOCR
